import Mathlib

/-
Verification of the eve-logger wire-protocol decoder and message assembler
(src/main.rs). The byte stream of a connection is modelled as a `List Nat`
(each element one byte); reading consumes a prefix of the list and returns
the rest, so `io::Result` plus the source's `panic!` calls become
`Except Failure`. Machine integers are modelled as `Nat` with the byte
decoding performing the `% 256` reductions. The `#[repr(C)]` struct
reinterpretation done with `ptr::copy_nonoverlapping` is modelled by reading
each field at its C-layout offset inside the payload frame; the offsets and
sizes are computed from the declared field lists by `reprCSize`/`fieldOffsets`,
mirroring `mem::size_of`.
-/

set_option maxRecDepth 40000

namespace EveLogger

/-- Fatal conditions of a connection: transport errors (`ioError`, from a
short read) and the source's `panic!` calls, tagged by which panic fires. -/
inductive Failure where
  | ioError : Failure
  | unknownMessageType (code : Nat) : Failure
  | unexpectedType (t : Nat) : Failure
  | notContinuation : Failure
  | unknownVersion (v : Nat) : Failure
  deriving DecidableEq, Repr

/-- `enum MessageType` from src/main.rs. -/
inductive MessageType where
  | Connection | Simple | Large | Continuation | ContinuationEnd
  deriving DecidableEq, Repr

/-- The enum discriminants (`Connection = 0`, ... `ContinuationEnd = 4`). -/
def MessageType.code : MessageType → Nat
  | .Connection => 0
  | .Simple => 1
  | .Large => 2
  | .Continuation => 3
  | .ContinuationEnd => 4

/-- `MessageType::from_u32`: panics (fatal) on any code other than 0..4. -/
def MessageType.from_u32 (value : Nat) : Except Failure MessageType :=
  match value with
  | 0 => .ok .Connection
  | 1 => .ok .Simple
  | 2 => .ok .Large
  | 3 => .ok .Continuation
  | 4 => .ok .ContinuationEnd
  | e => .error (.unknownMessageType e)

/-- `enum Severity` from src/main.rs. -/
inductive Severity where
  | Info | Notice | Warn | Error | Unknown (code : Nat)
  deriving DecidableEq, Repr

/-- `Severity::from_u32`: total, every unrecognized code becomes `Unknown`. -/
def Severity.from_u32 (value : Nat) : Severity :=
  match value with
  | 0 => .Info
  | 1 => .Notice
  | 2 => .Warn
  | 3 => .Error
  | e => .Unknown e

/-! ### C (`repr(C)`) layout of the two raw payload structs -/

/-- Round `off` up to the next multiple of the alignment `a`. -/
def alignUp (off a : Nat) : Nat := (off + a - 1) / a * a

/-- Field layout of `#[repr(C)] struct RawConnectionMessage`
(`version: u32, pid: u64, machine_name: [u8; 32], executable_path: [u8; 260]`),
as (size, alignment) pairs. -/
def connFields : List (Nat × Nat) := [(4, 4), (8, 8), (32, 1), (260, 1)]

/-- Field layout of `#[repr(C)] struct RawTextMessage`
(`timestamp: u64, severity: u32, module: [u8; 32], channel: [u8; 32],
message: [u8; 256]`), as (size, alignment) pairs. -/
def textFields : List (Nat × Nat) := [(8, 8), (4, 4), (32, 1), (32, 1), (256, 1)]

/-- End offset of the last field of a C struct laid out from `off`. -/
def fieldsEnd (fields : List (Nat × Nat)) (off : Nat) : Nat :=
  match fields with
  | [] => off
  | (s, a) :: rest => fieldsEnd rest (alignUp off a + s)

/-- The C-layout offset of each field of a struct. -/
def fieldOffsets (fields : List (Nat × Nat)) (off : Nat) : List Nat :=
  match fields with
  | [] => []
  | (s, a) :: rest => alignUp off a :: fieldOffsets rest (alignUp off a + s)

/-- `mem::size_of` for a `repr(C)` struct: end of the last field rounded up
to the struct's alignment (the maximum field alignment). -/
def reprCSize (fields : List (Nat × Nat)) : Nat :=
  alignUp (fieldsEnd fields 0) (fields.foldl (fun m p => max m p.2) 1)

/-- `payload_size` in `read_raw_packet`:
`cmp::max(mem::size_of::<RawConnectionMessage>(), mem::size_of::<RawTextMessage>())`. -/
def payload_size : Nat := max (reprCSize connFields) (reprCSize textFields)

/-! ### Raw and decoded message types -/

/-- `struct RawConnectionMessage` after the byte reinterpretation: the two
integers decoded little-endian, the fixed-width byte arrays kept as bytes. -/
structure RawConnectionMessage where
  version : Nat
  pid : Nat
  machine_name : List Nat
  executable_path : List Nat
  deriving DecidableEq, Repr

/-- `struct RawTextMessage` after the byte reinterpretation. -/
structure RawTextMessage where
  timestamp : Nat
  severity : Nat
  module : List Nat
  channel : List Nat
  message : List Nat
  deriving DecidableEq, Repr

/-- `enum RawMessage`. -/
inductive RawMessage where
  | RawConnection (m : RawConnectionMessage)
  | RawText (t : MessageType) (m : RawTextMessage)
  deriving DecidableEq, Repr

/-- `struct ConnectionMessage` (strings as decoded character lists). -/
structure ConnectionMessage where
  version : Nat
  pid : Nat
  machine_name : List Char
  executable_path : List Char
  deriving DecidableEq, Repr

/-- `struct TextMessage`. -/
structure TextMessage where
  timestamp : Nat
  severity : Severity
  module : List Char
  channel : List Char
  message : List Char
  deriving DecidableEq, Repr

/-- `enum Message`. -/
inductive Message where
  | Connection (m : ConnectionMessage)
  | Text (m : TextMessage)
  deriving DecidableEq, Repr

/-! ### Byte-stream reading -/

/-- Little-endian value of a byte list (least significant byte first);
each element is reduced `% 256` as a wire byte. -/
def leBytes : List Nat → Nat
  | [] => 0
  | b :: rest => b % 256 + 256 * leBytes rest

/-- Consume exactly `n` bytes from the stream (`read_exact` / `read_u32` /
`read_u64`): a stream that ends or short-reads gives an I/O error. -/
def readBytes (n : Nat) (s : List Nat) : Except Failure (List Nat × List Nat) :=
  if n ≤ s.length then .ok (s.take n, s.drop n) else .error .ioError

/-! ### UTF-8 lossy decoding (`String::from_utf8_lossy`) -/

/-- The Unicode replacement character U+FFFD. -/
def repl : Char := Char.ofNat 0xFFFD

/-- Is `b` a UTF-8 continuation byte (0x80..0xBF)? -/
def isCont (b : Nat) : Bool := 0x80 ≤ b && b ≤ 0xBF

/-- How many continuation bytes a UTF-8 lead byte `b` requires
(0 for ASCII and for invalid lead bytes). -/
def contNeed (b : Nat) : Nat :=
  if 0xC2 ≤ b && b ≤ 0xDF then 1
  else if 0xE0 ≤ b && b ≤ 0xEF then 2
  else if 0xF0 ≤ b && b ≤ 0xF4 then 3
  else 0

/-- Whether `c` is acceptable as the continuation byte at index `i` (0-based)
after lead byte `b`, per the UTF-8 validation ranges used by Rust's
`core::str` (excluding overlong forms, surrogates and values above
U+10FFFF at the second byte). -/
def contOk (b i c : Nat) : Bool :=
  if i = 0 then
    if b ≤ 0xDF then isCont c
    else if b = 0xE0 then 0xA0 ≤ c && c ≤ 0xBF
    else if b = 0xED then 0x80 ≤ c && c ≤ 0x9F
    else if b ≤ 0xEF then isCont c
    else if b = 0xF0 then 0x90 ≤ c && c ≤ 0xBF
    else if b = 0xF4 then 0x80 ≤ c && c ≤ 0x8F
    else isCont c
  else isCont c

/-- Length of the longest prefix of `cs` that validly continues lead byte
`b`, starting at continuation index `i`. -/
def validPrefixLen (b : Nat) (cs : List Nat) (i : Nat) : Nat :=
  match cs with
  | [] => 0
  | c :: rest => if contOk b i c then 1 + validPrefixLen b rest (i + 1) else 0

/-- Code point assembled from lead byte `b` and its continuation bytes. -/
def utf8Value (b : Nat) (cs : List Nat) : Nat :=
  cs.foldl (fun acc c => acc * 64 + (c - 0x80))
    (if b ≤ 0xDF then b - 0xC0 else if b ≤ 0xEF then b - 0xE0 else b - 0xF0)

/-- `String::from_utf8_lossy`: decode UTF-8, substituting U+FFFD using the
"maximal subpart" policy of Rust's `Utf8Error::error_len` — on an invalid
continuation byte the lead byte and the valid continuations before it are
replaced by one U+FFFD and decoding resumes at the offending byte; an
incomplete sequence at the end of input becomes one final U+FFFD. -/
def from_utf8_lossy (l : List Nat) : List Char :=
  match l with
  | [] => []
  | b :: rest =>
    if b < 0x80 then Char.ofNat b :: from_utf8_lossy rest
    else
      let need := contNeed b
      if need = 0 then repl :: from_utf8_lossy rest
      else
        let m := validPrefixLen b (rest.take need) 0
        if m = need then
          Char.ofNat (utf8Value b (rest.take need)) :: from_utf8_lossy (rest.drop need)
        else if rest.length < need && m = rest.length then [repl]
        else repl :: from_utf8_lossy (rest.drop m)
  termination_by l.length
  decreasing_by
    · simp
    · simp
    · simp [List.length_drop]; omega
    · simp [List.length_drop]; omega

/-- `convert_string`: take bytes up to (excluding) the first zero byte, then
decode lossily (`vector.iter().map(|x| *x).take_while(|x| *x != 0)` followed
by `String::from_utf8_lossy`). -/
def convert_string (vector : List Nat) : List Char :=
  from_utf8_lossy (vector.takeWhile (fun x => x ≠ 0))

/-! ### The packet decoder (`read_raw_packet`) -/

/-- Reinterpretation of the leading bytes of the payload frame as
`RawConnectionMessage`: per its `repr(C)` layout (`fieldOffsets connFields 0 =
[0, 8, 16, 48]`) `version` is the little-endian `u32` at offset 0, `pid` the
little-endian `u64` at offset 8 (offset 4..8 is alignment padding),
`machine_name` bytes 16..48 and `executable_path` bytes 48..308. -/
def decodeRawConnection (p : List Nat) : RawConnectionMessage :=
  { version := leBytes (p.take 4)
    pid := leBytes ((p.drop 8).take 8)
    machine_name := (p.drop 16).take 32
    executable_path := (p.drop 48).take 260 }

/-- Reinterpretation of the leading bytes of the payload frame as
`RawTextMessage`: per its `repr(C)` layout (`fieldOffsets textFields 0 =
[0, 8, 12, 44, 76]`) `timestamp` is the little-endian `u64` at offset 0,
`severity` the little-endian `u32` at offset 8, `module` bytes 12..44,
`channel` bytes 44..76 and `message` bytes 76..332. -/
def decodeRawText (p : List Nat) : RawTextMessage :=
  { timestamp := leBytes (p.take 8)
    severity := leBytes ((p.drop 8).take 4)
    module := (p.drop 12).take 32
    channel := (p.drop 44).take 32
    message := (p.drop 76).take 256 }

/-- The final `match message_type` of `read_raw_packet`: type `Connection`
selects the connection shape, every other known type the text shape. -/
def decodeRaw (t : MessageType) (p : List Nat) : RawMessage :=
  match t with
  | .Connection => .RawConnection (decodeRawConnection p)
  | t => .RawText t (decodeRawText p)

/-- `read_raw_packet`: read a little-endian `u32` type code, panic on an
unknown code, read and discard 4 padding bytes, read exactly `payload_size`
bytes, and reinterpret their leading bytes as the shape the type selects. -/
def read_raw_packet (s : List Nat) : Except Failure (RawMessage × List Nat) :=
  match readBytes 4 s with
  | .error e => .error e
  | .ok (tb, s1) =>
    match MessageType.from_u32 (leBytes tb) with
    | .error e => .error e
    | .ok message_type =>
      match readBytes 4 s1 with
      | .error e => .error e
      | .ok (_, s2) =>
        match readBytes payload_size s2 with
        | .error e => .error e
        | .ok (payload, s3) => .ok (decodeRaw message_type payload, s3)

/-! ### The message assembler (`read_packet` / `read_continuation`) -/

/-- Size of one whole packet on the wire: type code, padding, payload frame. -/
def packetSize : Nat := 4 + 4 + payload_size

theorem payload_size_eq : payload_size = 336 := by decide

theorem readBytes_ok {n : Nat} {s a r : List Nat}
    (h : readBytes n s = .ok (a, r)) :
    a = s.take n ∧ r = s.drop n ∧ n ≤ s.length := by
  unfold readBytes at h
  split at h
  · simp only [Except.ok.injEq, Prod.mk.injEq] at h
    exact ⟨h.1.symm, h.2.symm, by assumption⟩
  · simp at h

/-- A successful `read_raw_packet` consumes exactly one `packetSize`-byte
packet from the stream. -/
theorem read_raw_packet_ok {s : List Nat} {m : RawMessage} {r : List Nat}
    (h : read_raw_packet s = .ok (m, r)) :
    r = s.drop packetSize ∧ packetSize ≤ s.length := by
  unfold read_raw_packet at h
  split at h
  · simp at h
  next tb s1 h4 =>
    split at h
    · simp at h
    next mt hmt =>
      split at h
      · simp at h
      next pad s2 h4' =>
        split at h
        · simp at h
        next payload s3 hp =>
          obtain ⟨-, hr3, hl3⟩ := readBytes_ok hp
          obtain ⟨-, hr2, hl2⟩ := readBytes_ok h4'
          obtain ⟨-, hr1, hl1⟩ := readBytes_ok h4
          simp only [Except.ok.injEq, Prod.mk.injEq] at h
          obtain ⟨-, hr⟩ := h
          subst hr
          constructor
          · rw [hr3, hr2, hr1, List.drop_drop, List.drop_drop]
            rfl
          · have hps : payload_size = 336 := payload_size_eq
            rw [hr2, hr1] at hl3
            simp only [List.drop_drop, List.length_drop] at hl3
            unfold packetSize
            omega

theorem read_raw_packet_ok_lt {s : List Nat} {m : RawMessage} {r : List Nat}
    (h : read_raw_packet s = .ok (m, r)) : r.length < s.length := by
  obtain ⟨hr, hl⟩ := read_raw_packet_ok h
  rw [hr, List.length_drop]
  have : 0 < packetSize := by decide
  omega

/-- `read_continuation`: pull packets and append each Continuation fragment's
decoded message text to the in-progress message, until a ContinuationEnd
closes it; any other record is a fatal protocol violation. The source
mutates `message` in place and recurses; here the updated message is
returned together with the unconsumed stream. -/
def read_continuation (message : TextMessage) (s : List Nat) :
    Except Failure (TextMessage × List Nat) :=
  match h : read_raw_packet s with
  | .error e => .error e
  | .ok (.RawText .Continuation raw_message, r) =>
    read_continuation
      { message with message := message.message ++ convert_string raw_message.message } r
  | .ok (.RawText .ContinuationEnd raw_message, r) =>
    .ok ({ message with message := message.message ++ convert_string raw_message.message }, r)
  | .ok _ => .error .notContinuation
  termination_by s.length
  decreasing_by exact read_raw_packet_ok_lt h

/-- `read_packet`: decode one raw packet and assemble one logical message,
entering continuation accumulation after a Large record. A Continuation or
ContinuationEnd record here (the idle state) is a fatal protocol violation
(`panic!("Message type was {:?} but not in continuation mode ...")`),
modelled as `Failure.unexpectedType` carrying the type's discriminant. -/
def read_packet (s : List Nat) : Except Failure (Message × List Nat) :=
  match read_raw_packet s with
  | .error e => .error e
  | .ok (.RawConnection raw_message, r) =>
    .ok (.Connection
      { version := raw_message.version
        pid := raw_message.pid
        machine_name := convert_string raw_message.machine_name
        executable_path := convert_string raw_message.executable_path }, r)
  | .ok (.RawText t raw_message, r) =>
    let message : TextMessage :=
      { timestamp := raw_message.timestamp
        severity := Severity.from_u32 raw_message.severity
        module := convert_string raw_message.module
        channel := convert_string raw_message.channel
        message := convert_string raw_message.message }
    match t with
    | .Simple => .ok (.Text message, r)
    | .Large =>
      match read_continuation message r with
      | .error e => .error e
      | .ok (message, r) => .ok (.Text message, r)
    | t => .error (.unexpectedType t.code)

/-- The recursion of `read_continuation` written with an explicit step
budget, `none` meaning the budget was exhausted before the recursion
finished. Used to state that the source's unbounded recursion terminates
within `s.length` steps on every finite stream. -/
def read_continuation_fuel (fuel : Nat) (message : TextMessage) (s : List Nat) :
    Option (Except Failure (TextMessage × List Nat)) :=
  match fuel with
  | 0 => none
  | fuel + 1 =>
    match read_raw_packet s with
    | .error e => some (.error e)
    | .ok (.RawText .Continuation raw_message, r) =>
      read_continuation_fuel fuel
        { message with message := message.message ++ convert_string raw_message.message } r
    | .ok (.RawText .ContinuationEnd raw_message, r) =>
      some (.ok ({ message with message := message.message ++ convert_string raw_message.message }, r))
    | .ok _ => some (.error .notContinuation)

/-! ### The per-message logic of `handle_client` -/

/-- `msg.timestamp as i64`: reinterpret the unsigned 64-bit value as a
signed one (two's complement). -/
def tsToI64 (n : Nat) : Int :=
  if n % 2 ^ 64 < 2 ^ 63 then (n % 2 ^ 64 : Int) else (n % 2 ^ 64 : Int) - 2 ^ 64

/-- What `handle_client` observably does with one decoded message. -/
inductive ClientEvent where
  | connected (m : ConnectionMessage)
  | logged (seconds : Int) (nanos : Nat) (severity : Severity)
      (module channel message : List Char)
  deriving DecidableEq, Repr

/-- The body of `handle_client`'s loop for one message, acting on the
connection state `(version, pid)` (initially `(1, 0)`): a Connection message
stores version and pid; a Text message is logged with its timestamp decoded
by `NaiveDateTime::from_timestamp(msg.timestamp as i64, 0)` when the stored
version is 1, and panics (`"Version {} is unknown"`) for any other stored
version. -/
def handle_message (st : Nat × Nat) (m : Message) :
    Except Failure ((Nat × Nat) × ClientEvent) :=
  match m with
  | .Connection msg => .ok ((msg.version, msg.pid), .connected msg)
  | .Text msg =>
    match st.1 with
    | 1 => .ok (st, .logged (tsToI64 msg.timestamp) 0 msg.severity
        msg.module msg.channel msg.message)
    | e => .error (.unknownVersion e)

/-! ### Wire encoding, for quantifying over packet sequences -/

/-- Little-endian 4-byte encoding of `n` (the inverse of `leBytes` on
values below `2^32`). -/
def u32le (n : Nat) : List Nat :=
  [n % 256, n / 256 % 256, n / 256 ^ 2 % 256, n / 256 ^ 3 % 256]

/-- One whole wire packet: type code, 4 padding bytes, payload frame. -/
def mkPacket (t : MessageType) (payload : List Nat) : List Nat :=
  u32le t.code ++ u32le 0 ++ payload

theorem leBytes_u32le_code (t : MessageType) : leBytes (u32le t.code) = t.code := by
  cases t <;> rfl

theorem from_u32_code (t : MessageType) : MessageType.from_u32 t.code = .ok t := by
  cases t <;> rfl

theorem readBytes_append (n : Nat) (a b : List Nat)
    (ha : a.length = n) : readBytes n (a ++ b) = .ok (a, b) := by
  unfold readBytes
  rw [← ha, if_pos (by simp), List.take_left, List.drop_left]

/-- Framing: reading a raw packet from an encoded packet followed by
anything decodes that packet and leaves exactly the rest. -/
theorem read_raw_packet_mkPacket (t : MessageType) {p : List Nat}
    (rest : List Nat) (hp : p.length = payload_size) :
    read_raw_packet (mkPacket t p ++ rest) = .ok (decodeRaw t p, rest) := by
  unfold mkPacket
  rw [List.append_assoc, List.append_assoc]
  simp only [read_raw_packet,
    readBytes_append 4 (u32le t.code) (u32le 0 ++ (p ++ rest)) rfl,
    leBytes_u32le_code, from_u32_code,
    readBytes_append 4 (u32le 0) (p ++ rest) rfl,
    readBytes_append payload_size p rest hp]

/-- The `repr(C)` field offsets of `RawConnectionMessage`: the alignment of
`pid : u64` forces 4 bytes of padding after `version : u32`. -/
theorem connFields_offsets : fieldOffsets connFields 0 = [0, 8, 16, 48] := by decide

/-- The `repr(C)` field offsets of `RawTextMessage` (no interior padding). -/
theorem textFields_offsets : fieldOffsets textFields 0 = [0, 8, 12, 44, 76] := by decide

/-! ### Claim theorems -/

/-- C7: `Severity::from_u32` is total: codes 0, 1, 2, 3 decode to Info,
Notice, Warn, Error respectively, and every other code `c` decodes to
`Unknown c`. -/
theorem severity_from_u32_total :
    Severity.from_u32 0 = .Info ∧ Severity.from_u32 1 = .Notice ∧
    Severity.from_u32 2 = .Warn ∧ Severity.from_u32 3 = .Error ∧
    ∀ c : Nat, c ≠ 0 → c ≠ 1 → c ≠ 2 → c ≠ 3 → Severity.from_u32 c = .Unknown c := by
  refine ⟨rfl, rfl, rfl, rfl, ?_⟩
  intro c h0 h1 h2 h3
  match c with
  | 0 => exact absurd rfl h0
  | 1 => exact absurd rfl h1
  | 2 => exact absurd rfl h2
  | 3 => exact absurd rfl h3
  | n + 4 => rfl

theorem severity_from_u32_total_witness : Severity.from_u32 99 = .Unknown 99 :=
  severity_from_u32_total.2.2.2.2 99 (by decide) (by decide) (by decide) (by decide)

/-- C5: handling a Text message is gated on the stored protocol version:
version 1 logs the raw timestamp as Unix seconds with zero nanoseconds,
any other stored version is a fatal unsupported-version condition. -/
theorem version_gated_timestamp (st : Nat × Nat) (msg : TextMessage) :
    (st.1 = 1 → handle_message st (.Text msg) =
      .ok (st, .logged (tsToI64 msg.timestamp) 0 msg.severity
        msg.module msg.channel msg.message)) ∧
    (st.1 ≠ 1 → handle_message st (.Text msg) = .error (.unknownVersion st.1)) := by
  obtain ⟨v, p⟩ := st
  constructor
  · intro h
    simp only at h
    subst h
    rfl
  · intro h
    simp only at h
    unfold handle_message
    match v, h with
    | 0, _ => rfl
    | 1, h => exact absurd rfl h
    | n + 2, _ => rfl

theorem version_gated_timestamp_witness :
    handle_message (1, 0) (.Text ⟨1000, .Info, ['d', 'b'], ['a'], ['h', 'i']⟩) =
      .ok ((1, 0), .logged (tsToI64 1000) 0 .Info ['d', 'b'] ['a'] ['h', 'i']) :=
  (version_gated_timestamp (1, 0) ⟨1000, .Info, ['d', 'b'], ['a'], ['h', 'i']⟩).1 rfl

/-- C3: every raw packet read, whatever its type code, consumes exactly the
4-byte type code, 4 padding bytes and a payload frame of
`max(size_of::<RawConnectionMessage>(), size_of::<RawTextMessage>())` bytes,
the C-layout sizes of the two payload shapes (312 and 336 bytes). -/
theorem packet_frame_size :
    payload_size = max (reprCSize connFields) (reprCSize textFields) ∧
    reprCSize connFields = 312 ∧ reprCSize textFields = 336 ∧
    ∀ (s : List Nat) (m : RawMessage) (r : List Nat),
      read_raw_packet s = .ok (m, r) →
      r = s.drop (4 + 4 + payload_size) ∧ 4 + 4 + payload_size ≤ s.length := by
  refine ⟨rfl, by decide, by decide, ?_⟩
  intro s m r h
  exact read_raw_packet_ok h

theorem packet_frame_size_witness :
    ([9] : List Nat) =
      (mkPacket .Connection (List.replicate 336 0) ++ [9]).drop (4 + 4 + payload_size) ∧
    4 + 4 + payload_size ≤ (mkPacket .Connection (List.replicate 336 0) ++ [9]).length :=
  packet_frame_size.2.2.2 (mkPacket .Connection (List.replicate 336 0) ++ [9])
    (decodeRaw .Connection (List.replicate 336 0)) [9]
    (read_raw_packet_mkPacket .Connection [9]
      (by rw [List.length_replicate, payload_size_eq]))

/-- Size of the payload shape a type code selects: the connection shape for
`Connection`, the text shape for every other known type. -/
def shapeSize (t : MessageType) : Nat :=
  match t with
  | .Connection => reprCSize connFields
  | _ => reprCSize textFields

theorem field_agree {p q : List Nat} (o l n : Nat) (hol : o + l ≤ n)
    (h : p.take n = q.take n) : (p.drop o).take l = (q.drop o).take l := by
  have e : ∀ x : List Nat, (x.drop o).take l = ((x.take n).drop o).take l := by
    intro x
    rw [List.drop_take, List.take_take, Nat.min_eq_left (by omega)]
  rw [e p, e q, h]

/-- C9: the reinterpretation of a payload frame depends only on its leading
`shapeSize t` bytes; bytes after the selected shape are ignored. -/
theorem decode_ignores_trailing (t : MessageType) (p1 p2 : List Nat)
    (h : p1.take (shapeSize t) = p2.take (shapeSize t)) :
    decodeRaw t p1 = decodeRaw t p2 := by
  cases t
  case Connection =>
    have h1 := field_agree 0 4 (shapeSize .Connection) (by decide) h
    have h2 := field_agree 8 8 (shapeSize .Connection) (by decide) h
    have h3 := field_agree 16 32 (shapeSize .Connection) (by decide) h
    have h4 := field_agree 48 260 (shapeSize .Connection) (by decide) h
    simp only [List.drop_zero] at h1
    simp only [decodeRaw, decodeRawConnection]
    rw [h1, h2, h3, h4]
  all_goals {
    have h1 := field_agree 0 8 (reprCSize textFields) (by decide) h
    have h2 := field_agree 8 4 (reprCSize textFields) (by decide) h
    have h3 := field_agree 12 32 (reprCSize textFields) (by decide) h
    have h4 := field_agree 44 32 (reprCSize textFields) (by decide) h
    have h5 := field_agree 76 256 (reprCSize textFields) (by decide) h
    simp only [List.drop_zero] at h1
    simp only [decodeRaw, decodeRawText]
    rw [h1, h2, h3, h4, h5] }

theorem decode_ignores_trailing_witness :
    decodeRaw .Connection (List.replicate 336 3) =
      decodeRaw .Connection (List.replicate 312 3 ++ List.replicate 24 9) :=
  decode_ignores_trailing .Connection (List.replicate 336 3)
    (List.replicate 312 3 ++ List.replicate 24 9) (by decide)

/-- Modelled from the spec's words for C2 only: the claimed consecutive
layout of the Connection payload, `version` at bytes 0..4 immediately
followed by `pid` at bytes 4..12, `machine_name` at 12..44 and
`executable_path` at 44..304, with no padding anywhere. -/
def specConnDecode (p : List Nat) : RawConnectionMessage :=
  { version := leBytes (p.take 4)
    pid := leBytes ((p.drop 4).take 8)
    machine_name := (p.drop 12).take 32
    executable_path := (p.drop 44).take 260 }

/-- A Connection payload frame whose byte 4 is 1 and byte 8 is 2,
zero everywhere else. -/
def c2Payload : List Nat := ((List.replicate 336 0).set 4 1).set 8 2

/-- C2 counterexample: on `c2Payload` the decoder (which follows the
`repr(C)` layout, with 4 bytes of alignment padding between `version` and
`pid`) produces `pid = 2` from bytes 8..16, while the claimed consecutive
layout would produce `pid = 1 + 2 * 2^32` from bytes 4..12. -/
theorem connection_layout_counterexample :
    read_raw_packet (mkPacket .Connection c2Payload) =
      .ok (.RawConnection (decodeRawConnection c2Payload), []) ∧
    (decodeRawConnection c2Payload).pid = 2 ∧
    (specConnDecode c2Payload).pid = 1 + 2 * 2 ^ 32 ∧
    (decodeRawConnection c2Payload).pid ≠ (specConnDecode c2Payload).pid := by
  refine ⟨?_, by decide, by decide, by decide⟩
  have : mkPacket .Connection c2Payload = mkPacket .Connection c2Payload ++ [] := by simp
  rw [this, read_raw_packet_mkPacket .Connection [] (by decide)]
  rfl

/-- C2 amended: decoding a Connection packet reads `version` as the
little-endian `u32` at payload offset 0, skips 4 bytes of struct alignment
padding, reads `pid` as the little-endian `u64` at offset 8, then 32 bytes
of `machine_name` at offset 16 and 260 bytes of `executable_path` at
offset 48. -/
theorem connection_layout (p rest : List Nat) (hp : p.length = payload_size) :
    read_raw_packet (mkPacket .Connection p ++ rest) =
      .ok (.RawConnection
        { version := leBytes (p.take 4)
          pid := leBytes ((p.drop 8).take 8)
          machine_name := (p.drop 16).take 32
          executable_path := (p.drop 48).take 260 }, rest) := by
  rw [read_raw_packet_mkPacket .Connection rest hp]
  rfl

theorem connection_layout_witness :
    read_raw_packet (mkPacket .Connection (List.replicate 336 1) ++ []) =
      .ok (.RawConnection
        { version := leBytes ((List.replicate 336 1).take 4)
          pid := leBytes (((List.replicate 336 1).drop 8).take 8)
          machine_name := ((List.replicate 336 1).drop 16).take 32
          executable_path := ((List.replicate 336 1).drop 48).take 260 }, []) :=
  connection_layout (List.replicate 336 1) []
    (by rw [List.length_replicate, payload_size_eq])

/-- C4: no record the assembler state machine forbids is silently ignored.
In the idle state (`read_packet`) a Continuation or ContinuationEnd record
is the fatal panic `"... but not in continuation mode"`; while accumulating
(`read_continuation`) a Connection, Simple or Large record is the fatal
panic `"Message type was not a continuation ..."`. -/
theorem state_machine_violations :
    (∀ (s : List Nat) (t : MessageType) (raw : RawTextMessage) (r : List Nat),
      read_raw_packet s = .ok (.RawText t raw, r) →
      t = .Continuation ∨ t = .ContinuationEnd →
      read_packet s = .error (.unexpectedType t.code)) ∧
    (∀ (msg : TextMessage) (s : List Nat) (raw : RawConnectionMessage) (r : List Nat),
      read_raw_packet s = .ok (.RawConnection raw, r) →
      read_continuation msg s = .error .notContinuation) ∧
    (∀ (msg : TextMessage) (s : List Nat) (t : MessageType) (raw : RawTextMessage)
      (r : List Nat),
      read_raw_packet s = .ok (.RawText t raw, r) →
      t = .Connection ∨ t = .Simple ∨ t = .Large →
      read_continuation msg s = .error .notContinuation) := by
  refine ⟨?_, ?_, ?_⟩
  · intro s t raw r h ht
    rcases ht with rfl | rfl <;> simp only [read_packet, h]
  · intro msg s raw r h
    rw [read_continuation, h]
  · intro msg s t raw r h ht
    rw [read_continuation, h]
    rcases ht with rfl | rfl | rfl <;> rfl

theorem state_machine_violations_witness :
    read_packet (mkPacket .Continuation (List.replicate 336 0) ++ []) =
      .error (.unexpectedType MessageType.Continuation.code) :=
  state_machine_violations.1 (mkPacket .Continuation (List.replicate 336 0) ++ [])
    .Continuation (decodeRawText (List.replicate 336 0)) []
    (read_raw_packet_mkPacket .Continuation []
      (by rw [List.length_replicate, payload_size_eq]))
    (Or.inl rfl)

/-- Running the continuation loop against an encoded sequence of N
Continuation packets closed by one ContinuationEnd packet appends each
fragment's decoded message text, in arrival order, to the in-progress
message, and stops exactly at the end packet. -/
theorem read_continuation_run (conts : List (List Nat)) (pEnd rest : List Nat)
    (msg : TextMessage) (hc : ∀ p ∈ conts, p.length = payload_size)
    (he : pEnd.length = payload_size) :
    read_continuation msg
      ((conts.map (mkPacket .Continuation)).flatten ++
        (mkPacket .ContinuationEnd pEnd ++ rest)) =
      .ok ({ msg with message := msg.message ++
          ((conts.map (fun p => convert_string (decodeRawText p).message)).flatten ++
            convert_string (decodeRawText pEnd).message) }, rest) := by
  induction conts generalizing msg with
  | nil =>
    simp only [List.map_nil, List.flatten_nil, List.nil_append, List.flatten_nil]
    rw [read_continuation, read_raw_packet_mkPacket .ContinuationEnd rest he]
    rfl
  | cons c cs ih =>
    have hclen : c.length = payload_size := hc c (by simp)
    simp only [List.map_cons, List.flatten_cons, List.append_assoc]
    rw [read_continuation,
      read_raw_packet_mkPacket .Continuation
        ((cs.map (mkPacket .Continuation)).flatten ++ (mkPacket .ContinuationEnd pEnd ++ rest))
        hclen]
    have := ih { msg with message := msg.message ++ convert_string (decodeRawText c).message }
      (fun p hp => hc p (by simp [hp]))
    rw [show (decodeRaw .Continuation c) = .RawText .Continuation (decodeRawText c) from rfl]
    simp only at this ⊢
    rw [this]
    simp [List.append_assoc]

/-- C8: over any run of the continuation loop, only the `message` field of
the in-progress text message changes (it is extended on the right);
timestamp, severity, module and channel keep the values they had when the
message was created from the initial Large record. -/
theorem continuation_preserves_fields :
    ∀ (s : List Nat) (msg m : TextMessage) (r : List Nat),
      read_continuation msg s = .ok (m, r) →
      (m.timestamp = msg.timestamp ∧ m.severity = msg.severity ∧
        m.module = msg.module ∧ m.channel = msg.channel) ∧
      ∃ tail : List Char, m.message = msg.message ++ tail := by
  suffices H : ∀ (n : Nat) (s : List Nat), s.length ≤ n →
      ∀ (msg m : TextMessage) (r : List Nat),
        read_continuation msg s = .ok (m, r) →
        (m.timestamp = msg.timestamp ∧ m.severity = msg.severity ∧
          m.module = msg.module ∧ m.channel = msg.channel) ∧
        ∃ tail : List Char, m.message = msg.message ++ tail by
    exact fun s => H s.length s le_rfl
  intro n
  induction n with
  | zero =>
    intro s hs msg m r h
    have hnil : s = [] := List.length_eq_zero.mp (Nat.le_zero.mp hs)
    subst hnil
    have he : read_continuation msg [] = .error .ioError := by
      rw [read_continuation]
      rfl
    rw [he] at h
    exact absurd h (by simp)
  | succ n ih =>
    intro s hs msg m r h
    rw [read_continuation] at h
    split at h
    · exact absurd h (by simp)
    next raw r' heq =>
      have hlt : r'.length < s.length := read_raw_packet_ok_lt heq
      obtain ⟨⟨h1, h2, h3, h4⟩, tail, h5⟩ := ih r' (by omega)
        { msg with message := msg.message ++ convert_string raw.message } m r h
      refine ⟨⟨h1, h2, h3, h4⟩, convert_string raw.message ++ tail, ?_⟩
      rw [h5]
      exact List.append_assoc msg.message (convert_string raw.message) tail
    next raw r' heq =>
      simp only [Except.ok.injEq, Prod.mk.injEq] at h
      obtain ⟨h1, h2⟩ := h
      subst h1
      exact ⟨⟨rfl, rfl, rfl, rfl⟩, convert_string raw.message, rfl⟩
    next heq => exact absurd h (by simp)

/-- The concrete inputs of the C8 witness: an in-progress message and a
stream holding one all-zero ContinuationEnd packet. -/
def c8Msg : TextMessage := ⟨5, .Info, ['m'], ['c'], ['x']⟩

def c8Stream : List Nat :=
  (([] : List (List Nat)).map (mkPacket .Continuation)).flatten ++
    (mkPacket .ContinuationEnd (List.replicate 336 0) ++ [])

def c8Out : TextMessage :=
  { c8Msg with message := c8Msg.message ++
      ((([] : List (List Nat)).map
          (fun p => convert_string (decodeRawText p).message)).flatten ++
        convert_string (decodeRawText (List.replicate 336 0)).message) }

theorem continuation_preserves_fields_witness :
    (c8Out.timestamp = c8Msg.timestamp ∧ c8Out.severity = c8Msg.severity ∧
      c8Out.module = c8Msg.module ∧ c8Out.channel = c8Msg.channel) ∧
    ∃ tail : List Char, c8Out.message = c8Msg.message ++ tail :=
  continuation_preserves_fields c8Stream c8Msg c8Out []
    (read_continuation_run [] (List.replicate 336 0) [] c8Msg (by simp)
      (by rw [List.length_replicate, payload_size_eq]))

/-- C1: a Large packet, N Continuation packets (N ≥ 0) and one
ContinuationEnd packet on one connection assemble into a single Text
message whose `message` field is the concatenation of every fragment's
decoded message text, in arrival order, with nothing inserted between
fragments; the other fields come from the Large fragment. -/
theorem large_message_concatenation (p0 : List Nat) (conts : List (List Nat))
    (pEnd rest : List Nat) (h0 : p0.length = payload_size)
    (hc : ∀ p ∈ conts, p.length = payload_size) (he : pEnd.length = payload_size) :
    read_packet (mkPacket .Large p0 ++
        ((conts.map (mkPacket .Continuation)).flatten ++
          (mkPacket .ContinuationEnd pEnd ++ rest))) =
      .ok (.Text
        { timestamp := (decodeRawText p0).timestamp
          severity := Severity.from_u32 (decodeRawText p0).severity
          module := convert_string (decodeRawText p0).module
          channel := convert_string (decodeRawText p0).channel
          message := convert_string (decodeRawText p0).message ++
            ((conts.map (fun p => convert_string (decodeRawText p).message)).flatten ++
              convert_string (decodeRawText pEnd).message) }, rest) := by
  unfold read_packet
  rw [read_raw_packet_mkPacket .Large _ h0]
  rw [show decodeRaw .Large p0 = .RawText .Large (decodeRawText p0) from rfl]
  dsimp only
  rw [read_continuation_run conts pEnd rest _ hc he]

theorem large_message_concatenation_witness :
    read_packet (mkPacket .Large (List.replicate 336 97) ++
        (([List.replicate 336 98].map (mkPacket .Continuation)).flatten ++
          (mkPacket .ContinuationEnd (List.replicate 336 99) ++ []))) =
      .ok (.Text
        { timestamp := (decodeRawText (List.replicate 336 97)).timestamp
          severity := Severity.from_u32 (decodeRawText (List.replicate 336 97)).severity
          module := convert_string (decodeRawText (List.replicate 336 97)).module
          channel := convert_string (decodeRawText (List.replicate 336 97)).channel
          message := convert_string (decodeRawText (List.replicate 336 97)).message ++
            (([List.replicate 336 98].map
                (fun p => convert_string (decodeRawText p).message)).flatten ++
              convert_string (decodeRawText (List.replicate 336 99)).message) }, []) :=
  large_message_concatenation (List.replicate 336 97) [List.replicate 336 98]
    (List.replicate 336 99) []
    (by rw [List.length_replicate, payload_size_eq])
    (by
      intro p hp
      simp only [List.mem_singleton] at hp
      rw [hp, List.length_replicate, payload_size_eq])
    (by rw [List.length_replicate, payload_size_eq])

/-- One unfolding step of `read_continuation` when the next read fails. -/
theorem read_continuation_error {msg : TextMessage} {s : List Nat} {e : Failure}
    (h : read_raw_packet s = .error e) : read_continuation msg s = .error e := by
  rw [read_continuation, h]

/-- One unfolding step of `read_continuation` on a Continuation record. -/
theorem read_continuation_cont {msg : TextMessage} {s : List Nat}
    {raw : RawTextMessage} {r : List Nat}
    (h : read_raw_packet s = .ok (.RawText .Continuation raw, r)) :
    read_continuation msg s =
      read_continuation
        { msg with message := msg.message ++ convert_string raw.message } r := by
  rw [read_continuation, h]

/-- One unfolding step of `read_continuation` on a ContinuationEnd record. -/
theorem read_continuation_end {msg : TextMessage} {s : List Nat}
    {raw : RawTextMessage} {r : List Nat}
    (h : read_raw_packet s = .ok (.RawText .ContinuationEnd raw, r)) :
    read_continuation msg s =
      .ok ({ msg with message := msg.message ++ convert_string raw.message }, r) := by
  rw [read_continuation, h]

/-- One unfolding step of `read_continuation` on a record that is neither a
Continuation nor a ContinuationEnd. -/
theorem read_continuation_other {msg : TextMessage} {s : List Nat}
    {x : RawMessage × List Nat} (h : read_raw_packet s = .ok x)
    (hx : ∀ (raw : RawTextMessage) (r : List Nat),
      x ≠ (.RawText .Continuation raw, r) ∧ x ≠ (.RawText .ContinuationEnd raw, r)) :
    read_continuation msg s = .error .notContinuation := by
  obtain ⟨mr, r⟩ := x
  match mr with
  | .RawConnection raw => rw [read_continuation, h]
  | .RawText .Connection raw => rw [read_continuation, h]
  | .RawText .Simple raw => rw [read_continuation, h]
  | .RawText .Large raw => rw [read_continuation, h]
  | .RawText .Continuation raw => exact absurd rfl (hx raw r).1
  | .RawText .ContinuationEnd raw => exact absurd rfl (hx raw r).2

/-- C10: reading one logical message is total on every finite stream.
Each raw-packet read consumes exactly one fixed-size packet; a short read
is an I/O error rather than further recursion; and the continuation
recursion, given a step budget of the stream's length plus one, always
finishes within the budget with exactly `read_continuation`'s result. -/
theorem read_terminates :
    (∀ (s : List Nat) (m : RawMessage) (r : List Nat),
      read_raw_packet s = .ok (m, r) →
      r.length + (4 + 4 + payload_size) = s.length) ∧
    (∀ (n : Nat) (s : List Nat), s.length < n → readBytes n s = .error .ioError) ∧
    (∀ (msg : TextMessage) (s : List Nat),
      read_continuation_fuel (s.length + 1) msg s = some (read_continuation msg s)) := by
  have key : ∀ (k : Nat) (s : List Nat), s.length < k → ∀ msg : TextMessage,
      read_continuation_fuel k msg s = some (read_continuation msg s) := by
    intro k
    induction k with
    | zero => intro s hs; exact absurd hs (Nat.not_lt_zero _)
    | succ k ih =>
      intro s hs msg
      unfold read_continuation_fuel
      cases hr : read_raw_packet s with
      | error e =>
        rw [read_continuation_error hr]
      | ok x =>
        obtain ⟨mr, r⟩ := x
        match mr with
        | .RawText .Continuation raw =>
          rw [read_continuation_cont hr]
          have hlt : r.length < s.length := read_raw_packet_ok_lt hr
          exact ih r (by omega)
            { msg with message := msg.message ++ convert_string raw.message }
        | .RawText .ContinuationEnd raw =>
          rw [read_continuation_end hr]
        | .RawConnection raw =>
          rw [read_continuation_other hr (by intro raw' r'; exact ⟨by simp, by simp⟩)]
        | .RawText .Connection raw =>
          rw [read_continuation_other hr (by intro raw' r'; exact ⟨by simp, by simp⟩)]
        | .RawText .Simple raw =>
          rw [read_continuation_other hr (by intro raw' r'; exact ⟨by simp, by simp⟩)]
        | .RawText .Large raw =>
          rw [read_continuation_other hr (by intro raw' r'; exact ⟨by simp, by simp⟩)]
  refine ⟨?_, ?_, fun msg s => key (s.length + 1) s (Nat.lt_succ_self _) msg⟩
  · intro s m r h
    have h2 := read_raw_packet_ok h
    rw [h2.1, List.length_drop]
    have hl := h2.2
    unfold packetSize at hl
    unfold packetSize
    omega
  · intro n s h
    unfold readBytes
    rw [if_neg (by omega)]

theorem read_terminates_witness : readBytes 5 [] = .error .ioError :=
  read_terminates.2.1 5 [] (by decide)

theorem takeWhile_no_zero {a : List Nat} (ha : (0 : Nat) ∉ a) :
    a.takeWhile (fun x => x ≠ 0) = a := by
  induction a with
  | nil => rfl
  | cons x xs ih =>
    have hx : x ≠ 0 := fun h => ha (by simp [h])
    simp only [List.takeWhile_cons]
    rw [if_pos (by simpa using hx), ih (fun h => ha (List.mem_cons_of_mem x h))]

theorem takeWhile_until_zero {a : List Nat} (b : List Nat) (ha : (0 : Nat) ∉ a) :
    (a ++ 0 :: b).takeWhile (fun x => x ≠ 0) = a := by
  induction a with
  | nil => simp [List.takeWhile_cons]
  | cons x xs ih =>
    have hx : x ≠ 0 := fun h => ha (by simp [h])
    simp only [List.cons_append, List.takeWhile_cons]
    rw [if_pos (by simpa using hx), ih (fun h => ha (List.mem_cons_of_mem x h))]

theorem from_utf8_lossy_ascii :
    ∀ v : List Nat, (∀ x ∈ v, x < 128) → from_utf8_lossy v = v.map Char.ofNat := by
  intro v
  induction v with
  | nil => intro _; rw [from_utf8_lossy]; rfl
  | cons b rest ih =>
    intro hv
    rw [from_utf8_lossy, if_pos (by simpa using hv b (by simp)), List.map_cons,
      ih (fun x hx => hv x (by simp [hx]))]

/-- C6: `convert_string` keeps exactly the bytes before the first zero byte
(all of them when no zero occurs), decodes them as UTF-8 with U+FFFD
substituted for invalid sequences (`from_utf8_lossy`, which decodes valid
ASCII content verbatim), and is total — no byte contents make it fail. -/
theorem convert_string_spec :
    (∀ a b : List Nat, (0 : Nat) ∉ a → convert_string (a ++ 0 :: b) = convert_string a) ∧
    (∀ v : List Nat, (0 : Nat) ∉ v → convert_string v = from_utf8_lossy v) ∧
    (∀ v : List Nat, (∀ x ∈ v, 0 < x ∧ x < 128) →
      convert_string v = v.map Char.ofNat) ∧
    convert_string [255, 65, 0, 66] = [repl, 'A'] := by
  refine ⟨?_, ?_, ?_, ?_⟩
  · intro a b ha
    unfold convert_string
    rw [takeWhile_until_zero b ha, takeWhile_no_zero ha]
  · intro v hv
    unfold convert_string
    rw [takeWhile_no_zero hv]
  · intro v hv
    unfold convert_string
    rw [takeWhile_no_zero (fun h => by have := (hv 0 h).1; omega),
      from_utf8_lossy_ascii v (fun x hx => (hv x hx).2)]
  · simp [convert_string, from_utf8_lossy, contNeed, validPrefixLen, contOk, isCont,
      List.takeWhile]

theorem convert_string_spec_witness :
    convert_string ([104, 105] ++ 0 :: [106]) = convert_string [104, 105] :=
  convert_string_spec.1 [104, 105] [106] (by decide)

end EveLogger
